import Mathlib

/-!
Verification of the NotePilot study-assistant pipeline (src/app.py).

Python strings are modelled as `List Char`, Python dicts of quiz options as
ordered association lists with insert-or-update semantics, and Python
exceptions as `Except Unit`.  All definitions are translated from src/app.py;
the only exceptions are `searchIndex` (FAISS library code, not part of the
repository, modelled from the spec) and `specCorrectLetter` (the spec's
reading of a parsing rule, used to compare against the code's behaviour).
-/

/-- Python whitespace as used by `str.strip()` / `str.split()` (ASCII subset). -/
def pyIsSpace (c : Char) : Bool :=
  c == ' ' || c == '\t' || c == '\n' || c == '\r' || c == '\x0b' || c == '\x0c'

/-- Python `str.strip()`. -/
def pyStrip (l : List Char) : List Char :=
  ((l.dropWhile pyIsSpace).reverse.dropWhile pyIsSpace).reverse

/-- Python `str.lower()`. -/
def pyLower (l : List Char) : List Char := l.map Char.toLower

/-- Python `str.upper()`. -/
def pyUpper (l : List Char) : List Char := l.map Char.toUpper

/-- Python `str.startswith(p)`. -/
def startsWithL : List Char → List Char → Bool
  | [], _ => true
  | _ :: _, [] => false
  | p :: ps, c :: cs => if p = c then startsWithL ps cs else false

/-- Python `c in s` for a single character `c`. -/
def containsC (c : Char) (l : List Char) : Bool := l.any (fun x => decide (x = c))

/-- Python `s.split(c)` for a one-character separator (keeps empty pieces). -/
def splitChar (c : Char) : List Char → List (List Char)
  | [] => [[]]
  | x :: xs =>
    if x = c then [] :: splitChar c xs
    else
      match splitChar c xs with
      | [] => [[x]]
      | h :: t => (x :: h) :: t

/-- The text after the first occurrence of `c`: `s.split(c, 1)[-1]` when `c ∈ s`. -/
def afterChar (c : Char) (l : List Char) : List Char :=
  (l.dropWhile (fun x => decide (x ≠ c))).drop 1

/-- Index of the first occurrence of `sep` as a contiguous sublist, if any. -/
def findSub (sep : List Char) : List Char → Option Nat
  | [] => if startsWithL sep [] then some 0 else none
  | c :: rest =>
    if startsWithL sep (c :: rest) then some 0
    else (findSub sep rest).map (· + 1)

/-- Python `sep in s`. -/
def containsSub (sep l : List Char) : Bool := (findSub sep l).isSome

/-- Python `s.split(sep)[0]`. -/
def takeBeforeSub (sep l : List Char) : List Char :=
  match findSub sep l with
  | some i => l.take i
  | none => l

/-- Python `s.split(sep)` for a multi-character separator, by fuel
(`l.length + 1` units of fuel always suffice since each step consumes at
least one character). -/
def splitSubFuel (sep : List Char) : Nat → List Char → List (List Char)
  | 0, l => [l]
  | fuel + 1, l =>
    match findSub sep l with
    | none => [l]
    | some i => l.take i :: splitSubFuel sep fuel (l.drop (i + sep.length))

/-- Python `s.split(sep)`. -/
def pySplitSub (sep l : List Char) : List (List Char) :=
  splitSubFuel sep (l.length + 1) l

/-- Python `str.split()` with no argument: split on whitespace runs.
Empty pieces are produced at each whitespace character and filtered out
by `pyWords`. -/
def splitWS : List Char → List (List Char)
  | [] => [[]]
  | x :: xs =>
    if pyIsSpace x then [] :: splitWS xs
    else
      match splitWS xs with
      | [] => [[x]]
      | h :: t => (x :: h) :: t

/-- Python `text.split()`: the whitespace-delimited words of a string. -/
def pyWords (l : List Char) : List (List Char) :=
  (splitWS l).filter (fun w => decide (w ≠ []))

/-- Python `' '.join(ws)`. -/
def joinSpace : List (List Char) → List Char
  | [] => []
  | [w] => w
  | w :: w2 :: ws => w ++ ' ' :: joinSpace (w2 :: ws)

/-- Python `'\n'.join(ls)`. -/
def joinNL : List (List Char) → List Char
  | [] => []
  | [w] => w
  | w :: w2 :: ws => w ++ '\n' :: joinNL (w2 :: ws)

/-! ## Input guard (src/app.py lines 54-110) -/

/-- `MAX_INPUT_LENGTH` (src/app.py line 55). -/
def MAX_INPUT_LENGTH : Nat := 2000

/-- `PROMPT_INJECTION_PATTERNS` (src/app.py lines 56-68). -/
def PROMPT_INJECTION_PATTERNS : List (List Char) :=
  ["ignore previous".data, "ignore all previous".data, "ignore all".data,
   "disregard previous".data, "forget previous".data, "ignore instructions".data,
   "new instructions".data, "system prompt".data, "you are now".data,
   "act as".data, "from now on".data]

/-- `check_prompt_injection` (src/app.py lines 89-95). -/
def check_prompt_injection (text : List Char) : Bool :=
  PROMPT_INJECTION_PATTERNS.any (fun p => containsSub p (pyLower text))

/-- The message returned for empty input (src/app.py line 101). -/
def emptyMsg : List Char := "Input cannot be empty.".data

/-- The message returned for over-long input (src/app.py line 105). -/
def lengthMsg (maxLength : Nat) : List Char :=
  "Input too long. Maximum ".data ++ Nat.toDigits 10 maxLength ++
    " characters allowed.".data

/-- The message returned for detected injection (src/app.py line 108). -/
def injectionMsg : List Char :=
  "Invalid input detected. Please rephrase your question appropriately.".data

/-- `validate_input` (src/app.py lines 98-110). -/
def validate_input (text : List Char) (maxLength : Nat) : Bool × Option (List Char) :=
  if text = [] ∨ pyStrip text = [] then (false, some emptyMsg)
  else if maxLength < text.length then (false, some (lengthMsg maxLength))
  else if check_prompt_injection text then (false, some injectionMsg)
  else (true, none)

/-! ## Chunker (src/app.py lines 132-142) -/

/-- The index sequence of Python `range(i, stop, step)` for positive `step`,
by fuel; `chunkIndices` supplies fuel `stop - i`, which suffices because each
iteration advances `i` by `step ≥ 1`. -/
def chunkIndicesFuel (step : Nat) : Nat → Nat → Nat → List Nat
  | 0, _, _ => []
  | fuel + 1, i, stop =>
    if 0 < step ∧ i < stop then i :: chunkIndicesFuel step fuel (i + step) stop
    else []

/-- Python `range(0, stop, step)` reached from index `i`, for `step ≥ 1`. -/
def chunkIndices (stop step i : Nat) : List Nat :=
  chunkIndicesFuel step (stop - i) i stop

/-- `chunk_text` (src/app.py lines 132-142).  The Python loop iterates
`range(0, len(words), chunk_size - overlap)`: a zero step raises `ValueError`
(modelled `.error ()`), a negative step yields an empty range (so an empty
chunk list), and a positive step windows the word list.  A chunk is appended
only when `chunk.strip()` is truthy. -/
def chunk_text (text : List Char) (chunk_size overlap : Nat) :
    Except Unit (List (List Char)) :=
  if ((chunk_size : Int) - (overlap : Int)) = 0 then .error ()
  else if ((chunk_size : Int) - (overlap : Int)) < 0 then .ok []
  else .ok
    (((chunkIndices (pyWords text).length ((chunk_size : Int) - (overlap : Int)).toNat 0).map
        (fun i => joinSpace (((pyWords text).drop i).take chunk_size))).filter
      (fun c => decide (pyStrip c ≠ [])))

/-! ## Quiz parser (src/app.py lines 489-532) -/

/-- A parsed quiz question (src/app.py lines 500-506): `options` models the
Python dict keyed by option letters, as an ordered association list with
insert-or-update semantics. -/
structure Question where
  id : Nat
  question : List Char
  options : List (Char × List Char)
  correct : List Char
  explanation : List Char
deriving DecidableEq

/-- Python dict assignment `d[k] = v` on an association list: update in
place if the key exists, else append. -/
def dictSet (k : Char) (v : List Char) : List (Char × List Char) → List (Char × List Char)
  | [] => [(k, v)]
  | (k2, v2) :: rest => if k2 = k then (k, v) :: rest else (k2, v2) :: dictSet k v rest

/-- The option letters `{'A','B','C','D'}` (src/app.py line 525). -/
def abcd : List Char := ['A', 'B', 'C', 'D']

/-- The four accepted values of the `correct` field. -/
def correctChoices : List (List Char) := [['A'], ['B'], ['C'], ['D']]

def qPfx : List Char := ['Q', ':']

def aPfx : List Char := ['A', ')']

def bPfx : List Char := ['B', ')']

def cPfx : List Char := ['C', ')']

def dPfx : List Char := ['D', ')']

def correctPfx : List Char := ['C', 'o', 'r', 'r', 'e', 'c', 't', ':']

def explPfx : List Char := ['E', 'x', 'p', 'l', 'a', 'n', 'a', 't', 'i', 'o', 'n', ':']

/-- The prefix `f'{i}.'` checked at src/app.py line 509. -/
def ordPfx (i : Nat) : List Char := Nat.toDigits 10 i ++ ['.']

def dashes : List Char := ['-', '-', '-']

/-- The fresh question record of src/app.py lines 500-506. -/
def initQ (i : Nat) : Question := ⟨i, [], [], [], []⟩

/-- One iteration of the line-classification loop (src/app.py lines 508-522).
The `Correct:` branch mirrors `line.split(':')[1].strip().upper()[0]`: the
text between the first and second colons is stripped and upper-cased, and
indexing `[0]` on an empty string raises `IndexError` (modelled `.error ()`). -/
def processLine (i : Nat) (q : Question) (line : List Char) : Except Unit Question :=
  if startsWithL qPfx line || startsWithL (ordPfx i) line ||
      (q.question.isEmpty && containsC '?' line) then
    .ok { q with question :=
      if containsC ':' line then pyStrip (afterChar ':' line) else pyStrip line }
  else if startsWithL aPfx line then
    .ok { q with options := dictSet 'A' (pyStrip (line.drop 2)) q.options }
  else if startsWithL bPfx line then
    .ok { q with options := dictSet 'B' (pyStrip (line.drop 2)) q.options }
  else if startsWithL cPfx line then
    .ok { q with options := dictSet 'C' (pyStrip (line.drop 2)) q.options }
  else if startsWithL dPfx line then
    .ok { q with options := dictSet 'D' (pyStrip (line.drop 2)) q.options }
  else if startsWithL correctPfx line then
    match splitChar ':' line with
    | _ :: x :: _ =>
      match pyUpper (pyStrip x) with
      | [] => .error ()
      | ch :: _ => .ok { q with correct := [ch] }
    | _ => .error ()
  else if startsWithL explPfx line then
    .ok { q with explanation := pyStrip (afterChar ':' line) }
  else .ok q

/-- The `for line in lines` loop of src/app.py lines 508-522; a raised
exception aborts the whole parse. -/
def processLines (i : Nat) (q : Question) : List (List Char) → Except Unit Question
  | [] => .ok q
  | l :: rest =>
    match processLine i q l with
    | .error e => .error e
    | .ok q2 => processLines i q2 rest

/-- The per-section line pipeline of src/app.py line 495:
`[l.strip() for l in section.strip().split('\n') if l.strip()]`. -/
def pyLines (s : List Char) : List (List Char) :=
  ((splitChar '\n' (pyStrip s)).map pyStrip).filter (fun l => decide (l ≠ []))

/-- Parsing of one `---`-section (src/app.py lines 494-530): sections with
fewer than 6 non-empty lines are skipped; a parsed question is kept only if
its question text is non-empty, its options dict is non-empty, its correct
letter is one of A-D, and after restricting the options to keys A-D exactly
4 options remain. -/
def parseSection (i : Nat) (sec : List Char) : Except Unit (Option Question) :=
  if (pyLines sec).length < 6 then .ok none
  else
    match processLines i (initQ i) (pyLines sec) with
    | .error e => .error e
    | .ok q =>
      if q.question ≠ [] ∧ q.options ≠ [] ∧ q.correct ∈ correctChoices then
        if (q.options.filter (fun kv => decide (kv.1 ∈ abcd))).length = 4 then
          .ok (some { q with options := q.options.filter (fun kv => decide (kv.1 ∈ abcd)) })
        else .ok none
      else .ok none

/-- The `for i, section in enumerate(sections[:3], 1)` loop of
src/app.py line 494. -/
def parseSections : Nat → List (List Char) → Except Unit (List Question)
  | _, [] => .ok []
  | i, s :: rest =>
    match parseSection i s with
    | .error e => .error e
    | .ok q? =>
      match parseSections (i + 1) rest with
      | .error e => .error e
      | .ok qs =>
        .ok (match q? with
          | some q => q :: qs
          | none => qs)

/-- `parse_quiz` (src/app.py lines 489-532). -/
def parse_quiz (text : List Char) : Except Unit (List Question) :=
  parseSections 1
    (((pySplitSub dashes text).filter (fun s => decide (pyStrip s ≠ []))).take 3)

/-- Modelled from the spec (section 4.4, quiz parsing rule list): the claim's
reading of the `Correct:` rule — the first uppercase character among
A, B, C, D occurring anywhere in the text after the colon. -/
def specCorrectLetter (line : List Char) : Option Char :=
  (afterChar ':' line).find? (fun c => decide (c ∈ abcd))

/-- The structured content of a well-formed quiz segment: the remainders of
its seven lines after the `Q:`, `A)`, `B)`, `C)`, `D)`, `Correct:` and
`Explanation:` markers, and its correct letter. -/
structure WFSeg where
  rq : List Char
  ra : List Char
  rb : List Char
  rc : List Char
  rd : List Char
  rcor : List Char
  rex : List Char
  letter : Char
deriving DecidableEq

/-- The seven lines of a well-formed segment, in order. -/
def wfLines (w : WFSeg) : List (List Char) :=
  [qPfx ++ w.rq, aPfx ++ w.ra, bPfx ++ w.rb, cPfx ++ w.rc, dPfx ++ w.rd,
   correctPfx ++ w.rcor, explPfx ++ w.rex]

/-- A segment string `s` is well formed with content `w` when its non-empty
stripped lines are exactly the seven marker lines of `w`, its question text
is non-empty, and its `Correct:` line names the letter `w.letter ∈ {A,B,C,D}`
(the stripped text between the colon and any further colon is exactly that
letter). -/
def WFSegOk (s : List Char) (w : WFSeg) : Prop :=
  pyLines s = wfLines w ∧ pyStrip w.rq ≠ [] ∧
    pyStrip (w.rcor.takeWhile (fun x => decide (x ≠ ':'))) = [w.letter] ∧
    w.letter ∈ abcd

instance (s : List Char) (w : WFSeg) : Decidable (WFSegOk s w) := by
  unfold WFSegOk
  infer_instance

/-- The question record produced from a well-formed segment. -/
def wfQuestion (i : Nat) (w : WFSeg) : Question :=
  ⟨i, pyStrip w.rq,
   [('A', pyStrip w.ra), ('B', pyStrip w.rb), ('C', pyStrip w.rc), ('D', pyStrip w.rd)],
   [w.letter], pyStrip w.rex⟩

/-- Prepending an optional question, as in the loop of src/app.py line 530. -/
def consOpt (q? : Option Question) (qs : List Question) : List Question :=
  match q? with
  | some q => q :: qs
  | none => qs

/-- Concrete three-segment quiz text used to witness C1. -/
def c1Text : List Char :=
  ("Q: What is two plus two?\nA) three\nB) four\nC) five\nD) six\nCorrect: B\nExplanation: arithmetic\n---\nQ: What color is the sky?\nA) blue\nB) red\nC) green\nD) black\nCorrect: A\nExplanation: optics\n---\nQ: What is the capital of France?\nA) Rome\nB) Berlin\nC) Paris\nD) Madrid\nCorrect: C\nExplanation: geography").data

def c1Seg1 : List Char :=
  "Q: What is two plus two?\nA) three\nB) four\nC) five\nD) six\nCorrect: B\nExplanation: arithmetic\n".data

def c1Seg2 : List Char :=
  "\nQ: What color is the sky?\nA) blue\nB) red\nC) green\nD) black\nCorrect: A\nExplanation: optics\n".data

def c1Seg3 : List Char :=
  "\nQ: What is the capital of France?\nA) Rome\nB) Berlin\nC) Paris\nD) Madrid\nCorrect: C\nExplanation: geography".data

def c1W1 : WFSeg :=
  ⟨" What is two plus two?".data, " three".data, " four".data, " five".data,
   " six".data, " B".data, " arithmetic".data, 'B'⟩

def c1W2 : WFSeg :=
  ⟨" What color is the sky?".data, " blue".data, " red".data, " green".data,
   " black".data, " A".data, " optics".data, 'A'⟩

def c1W3 : WFSeg :=
  ⟨" What is the capital of France?".data, " Rome".data, " Berlin".data, " Paris".data,
   " Madrid".data, " C".data, " geography".data, 'C'⟩

/-- A six-line segment with no `D)` option line, used to witness C1 part 2. -/
def c1NoD : List Char :=
  "Q: What is two plus two?\nA) three\nB) four\nC) five\nCorrect: A\nExplanation: arithmetic".data

instance exceptDecEq {e a : Type} [DecidableEq e] [DecidableEq a] :
    DecidableEq (Except e a) := fun x y =>
  match x, y with
  | .error e1, .error e2 =>
    if h : e1 = e2 then isTrue (by rw [h]) else isFalse (fun hc => h (Except.error.inj hc))
  | .error _, .ok _ => isFalse (fun hc => Except.noConfusion hc)
  | .ok _, .error _ => isFalse (fun hc => Except.noConfusion hc)
  | .ok a1, .ok a2 =>
    if h : a1 = a2 then isTrue (by rw [h]) else isFalse (fun hc => h (Except.ok.inj hc))

/-! ## Quiz synthesis (src/app.py lines 379-486 and 536-553) -/

/-- The anchored regex `^\*\*[^*]+\*\*:?\s*` of src/app.py line 542, applied
as `re.sub(..., '', v)`: a leading bold heading (two stars, one or more
non-star characters, two stars, an optional colon, then whitespace) is
removed; anything else is left unchanged. -/
def stripBoldHeading (v : List Char) : List Char :=
  match v with
  | '*' :: '*' :: rest =>
    if (rest.takeWhile (fun c => decide (c ≠ '*'))).isEmpty then v
    else
      match rest.drop (rest.takeWhile (fun c => decide (c ≠ '*'))).length with
      | '*' :: '*' :: rest2 =>
        (match rest2 with
         | ':' :: r => r
         | r => r).dropWhile pyIsSpace
      | _ => v
  | _ => v

def ctxRefMark : List Char := "Context reference:".data

def refgMark : List Char := "Referencing:".data

/-- The explanation cleaning of src/app.py lines 547-552. -/
def cleanExplanation (e0 : List Char) : List Char :=
  if containsSub refgMark
      (if containsSub ctxRefMark (pyStrip e0) then pyStrip (takeBeforeSub ctxRefMark (pyStrip e0))
       else pyStrip e0) then
    pyStrip (takeBeforeSub refgMark
      (if containsSub ctxRefMark (pyStrip e0) then pyStrip (takeBeforeSub ctxRefMark (pyStrip e0))
       else pyStrip e0))
  else
    (if containsSub ctxRefMark (pyStrip e0) then pyStrip (takeBeforeSub ctxRefMark (pyStrip e0))
     else pyStrip e0)

/-- `clean_question_with_context` (src/app.py lines 536-553); the
`context_text` parameter is accepted but never used by the code. -/
def clean_question_with_context (q : Question) (ctx : List Char) : Question :=
  { q with
    options := q.options.map (fun kv => (kv.1, pyStrip (stripBoldHeading kv.2))),
    explanation := cleanExplanation q.explanation }

/-- One generation request: the prompt and grounding context passed to
`call_ollama` (src/app.py lines 447, 455, 461). -/
structure GenCall where
  prompt : List Char
  ctx : List Char
deriving DecidableEq

/-- The outcome of one `/generate-quiz` request (src/app.py lines 399-486):
an insufficient-content failure (line 414), a parser exception propagating to
the route's handler (line 483), a no-valid-questions failure (line 466), or a
question list (line 481). -/
inductive QuizResult where
  | insufficientContent : QuizResult
  | parseCrash : QuizResult
  | noValidQuestions : QuizResult
  | questions : List Question → QuizResult
deriving DecidableEq

/-- The sequential id reassignment of src/app.py lines 475-476. -/
def renumber : Nat → List Question → List Question
  | _, [] => []
  | i, q :: rest => { q with id := i } :: renumber (i + 1) rest

/-- The reminder retry prompt of src/app.py lines 452-454. -/
def retryPromptText (n : Nat) (quizPrompt : List Char) : List Char :=
  "CRITICAL: You must generate EXACTLY 3 complete questions. Previous attempt only produced ".data
    ++ Nat.toDigits 10 n ++ ".\n\n".data ++ quizPrompt

/-- The finalization of src/app.py lines 464-476: fail when no valid
question was parsed, else take at most 3, clean each against the quiz
context, and renumber ids starting at 1. -/
def finalizeQuiz (ctx : List Char) (qs : List Question) : QuizResult :=
  if qs.length = 0 then .noValidQuestions
  else .questions (renumber 1 ((qs.take 3).map (fun q => clean_question_with_context q ctx)))

/-- `generate_quiz` (src/app.py lines 379-486), from the point where the
filtered sentence list exists.  External effects are inputs: `shuffle` is the
outcome of `random.shuffle` (line 417; in the code the same list object is
shuffled in place, so later reads of `filtered_sentences` see the shuffled
order), `quizPrompt` is the composed prompt of lines 421-444 (it embeds
`time.time()`), and `gen k` is the backend's response to the k-th
`call_ollama` call.  The returned trace lists the (prompt, context) of each
generation call in order. -/
def generate_quiz (filtered : List (List Char))
    (shuffle : List (List Char) → List (List Char))
    (quizPrompt : List Char) (gen : Nat → List Char) : List GenCall × QuizResult :=
  if filtered.length < 3 then ([], .insufficientContent)
  else
    match parse_quiz (gen 0) with
    | .error _ => ([⟨quizPrompt, joinNL (shuffle filtered)⟩], .parseCrash)
    | .ok qs0 =>
      if qs0.length < 3 then
        match parse_quiz (gen 1) with
        | .error _ =>
          ([⟨quizPrompt, joinNL (shuffle filtered)⟩,
            ⟨retryPromptText qs0.length quizPrompt, joinNL (shuffle filtered)⟩], .parseCrash)
        | .ok qs1 =>
          if qs1.length < 3 ∧ 8 < (shuffle filtered).length then
            match parse_quiz (gen 2) with
            | .error _ =>
              ([⟨quizPrompt, joinNL (shuffle filtered)⟩,
                ⟨retryPromptText qs0.length quizPrompt, joinNL (shuffle filtered)⟩,
                ⟨quizPrompt, joinNL ((shuffle filtered).take 15)⟩], .parseCrash)
            | .ok qs2 =>
              ([⟨quizPrompt, joinNL (shuffle filtered)⟩,
                ⟨retryPromptText qs0.length quizPrompt, joinNL (shuffle filtered)⟩,
                ⟨quizPrompt, joinNL ((shuffle filtered).take 15)⟩],
               finalizeQuiz (joinNL (shuffle filtered)) qs2)
          else
            ([⟨quizPrompt, joinNL (shuffle filtered)⟩,
              ⟨retryPromptText qs0.length quizPrompt, joinNL (shuffle filtered)⟩],
             finalizeQuiz (joinNL (shuffle filtered)) qs1)
      else
        ([⟨quizPrompt, joinNL (shuffle filtered)⟩], finalizeQuiz (joinNL (shuffle filtered)) qs0)

/-! ## C2 -/

/-- Nine filtered sentences (more than 8, so the expanded-context retry is
reachable). -/
def c2Filtered : List (List Char) :=
  ["L1".data, "L2".data, "L3".data, "L4".data, "L5".data, "L6".data, "L7".data,
   "L8".data, "L9".data]

/-- Three filtered sentences (at most 8, so no second retry). -/
def c2Short : List (List Char) := ["L1".data, "L2".data, "L3".data]

/-- A generation response that parses to exactly two valid questions. -/
def c2TwoSeg : List Char :=
  ("Q: What is two plus two?\nA) three\nB) four\nC) five\nD) six\nCorrect: B\nExplanation: arithmetic\n---\nQ: What color is the sky?\nA) blue\nB) red\nC) green\nD) black\nCorrect: A\nExplanation: optics").data

/-! ## Retriever (src/app.py lines 145-167) -/

/-- Squared L2 distance between two embedding vectors, over `ℚ` (FAISS
`IndexFlatL2` returns squared L2 distances; squaring preserves the L2
ordering). -/
def sqDist (u v : List ℚ) : ℚ :=
  (List.zipWith (fun a b => (a - b) * (a - b)) u v).sum

/-- Comparison of stored-vector indices: ascending squared L2 distance to
the query embedding, ties broken by ascending insertion index. -/
def idxLe (e : List (List ℚ)) (qe : List ℚ) (i j : Nat) : Prop :=
  sqDist (e.getD i []) qe < sqDist (e.getD j []) qe ∨
    (sqDist (e.getD i []) qe = sqDist (e.getD j []) qe ∧ i ≤ j)

instance idxLeDec (e : List (List ℚ)) (qe : List ℚ) : DecidableRel (idxLe e qe) :=
  fun i j => by
    unfold idxLe
    infer_instance

/-- Modelled from the spec: the FAISS `IndexFlatL2` search called by
`retrieve_relevant_chunks` (src/app.py line 165) is library code not present
under src/.  Spec section 4.2: exact L2 nearest-neighbour search against
every stored vector, `top_k` clamped to the number of stored vectors, ties
in distance broken by ascending original insertion index. -/
def searchIndex (e : List (List ℚ)) (qe : List ℚ) (topK : Nat) : List Nat :=
  ((List.range e.length).insertionSort (idxLe e qe)).take topK

/-- `retrieve_relevant_chunks` (src/app.py lines 162-167): embed the query
with the session's embedding provider, search the index, and map the
returned indices to chunk texts. -/
def retrieve_relevant_chunks (encode : List Char → List ℚ) (query : List Char)
    (chunks : List (List Char)) (embeddings : List (List ℚ)) (topK : Nat) :
    List (List Char) :=
  (searchIndex embeddings (encode query) topK).map (fun i => chunks.getD i [])

/-! ## Lemmas and theorems -/

/-! ## Helper lemmas about the string model -/

lemma mem_dropWhile_not (p : Char → Bool) {c : Char} :
    ∀ {l : List Char}, c ∈ l → p c = false → c ∈ l.dropWhile p := by
  intro l
  induction l with
  | nil => intro h; cases h
  | cons x xs ih =>
    intro hc hp
    rw [List.dropWhile_cons]
    by_cases hx : p x = true
    · rw [if_pos hx]
      rcases List.mem_cons.mp hc with rfl | hmem
      · rw [hp] at hx; cases hx
      · exact ih hmem hp
    · rw [if_neg hx]
      exact hc

lemma mem_pyStrip {c : Char} {l : List Char} (hc : c ∈ l)
    (hp : pyIsSpace c = false) : c ∈ pyStrip l := by
  unfold pyStrip
  rw [List.mem_reverse]
  apply mem_dropWhile_not _ _ hp
  rw [List.mem_reverse]
  exact mem_dropWhile_not _ hc hp

lemma pyStrip_ne_nil {c : Char} {l : List Char} (hc : c ∈ l)
    (hp : pyIsSpace c = false) : pyStrip l ≠ [] :=
  List.ne_nil_of_mem (mem_pyStrip hc hp)

lemma splitWS_nospace :
    ∀ (l : List Char) (w : List Char), w ∈ splitWS l → ∀ c ∈ w, pyIsSpace c = false := by
  intro l
  induction l with
  | nil =>
    intro w hw c hc
    simp only [splitWS, List.mem_singleton] at hw
    subst hw; cases hc
  | cons x xs ih =>
    intro w hw c hc
    rw [splitWS] at hw
    by_cases hx : pyIsSpace x = true
    · rw [if_pos hx] at hw
      rcases List.mem_cons.mp hw with rfl | hmem
      · cases hc
      · exact ih w hmem c hc
    · rw [if_neg hx] at hw
      rcases h : splitWS xs with _ | ⟨h1, t1⟩
      · rw [h] at hw
        rcases List.mem_singleton.mp hw
        rcases List.mem_singleton.mp hc
        exact Bool.eq_false_iff.mpr hx
      · rw [h] at hw
        rcases List.mem_cons.mp hw with rfl | hmem
        · rcases List.mem_cons.mp hc with rfl | hc1
          · exact Bool.eq_false_iff.mpr hx
          · exact ih h1 (h ▸ List.mem_cons_self h1 t1) c hc1
        · exact ih w (h ▸ List.mem_cons_of_mem h1 hmem) c hc

lemma pyWords_nospace {l w : List Char} (hw : w ∈ pyWords l) :
    ∀ c ∈ w, pyIsSpace c = false :=
  splitWS_nospace l w (List.mem_of_mem_filter hw)

lemma pyWords_ne_nil {l w : List Char} (hw : w ∈ pyWords l) : w ≠ [] := by
  have := List.of_mem_filter hw
  simpa using this

lemma mem_joinSpace_head {c : Char} {w : List Char} (ws : List (List Char))
    (hc : c ∈ w) : c ∈ joinSpace (w :: ws) := by
  cases ws with
  | nil => simpa [joinSpace] using hc
  | cons w2 ws2 =>
    rw [joinSpace]
    exact List.mem_append_left _ hc

lemma chunkIndicesFuel_mem {step : Nat} :
    ∀ (fuel i stop j : Nat), j ∈ chunkIndicesFuel step fuel i stop → j < stop := by
  intro fuel
  induction fuel with
  | zero => intro i stop j h; cases h
  | succ n ih =>
    intro i stop j h
    rw [chunkIndicesFuel] at h
    by_cases hcond : 0 < step ∧ i < stop
    · rw [if_pos hcond] at h
      rcases List.mem_cons.mp h with rfl | hmem
      · exact hcond.2
      · exact ih _ _ _ hmem
    · rw [if_neg hcond] at h
      cases h

lemma chunkIndices_mem {stop step i j : Nat} (h : j ∈ chunkIndices stop step i) :
    j < stop :=
  chunkIndicesFuel_mem _ _ _ _ h

lemma ceil_div_rec {step n : Nat} (hstep : 0 < step) (hn : 0 < n) :
    (n + step - 1) / step = (n - step + step - 1) / step + 1 := by
  rcases le_or_lt step n with hsn | hns
  · have h1 : n - step + step - 1 = n - 1 := by omega
    have h2 : n + step - 1 = (n - 1) + step := by omega
    rw [h1, h2, Nat.add_div_right _ hstep]
  · have h1 : n - step = 0 := by omega
    have h2 : (0 + step - 1) / step = 0 := Nat.div_eq_of_lt (by omega)
    rw [h1, h2]
    have hone : (n + step - 1) / step = 1 :=
      Nat.div_eq_of_lt_le (by omega) (by omega)
    omega

lemma chunkIndicesFuel_length {step : Nat} (hstep : 0 < step) :
    ∀ (fuel i stop : Nat), stop - i ≤ fuel →
      (chunkIndicesFuel step fuel i stop).length = ((stop - i) + step - 1) / step := by
  intro fuel
  induction fuel with
  | zero =>
    intro i stop hle
    have : stop - i = 0 := by omega
    rw [chunkIndicesFuel, this]
    exact (Nat.div_eq_of_lt (by omega)).symm
  | succ n ih =>
    intro i stop hle
    rw [chunkIndicesFuel]
    by_cases hcond : 0 < step ∧ i < stop
    · rw [if_pos hcond, List.length_cons,
        ih (i + step) stop (by omega)]
      have harg : stop - (i + step) = (stop - i) - step := by omega
      rw [harg]
      exact (ceil_div_rec hstep (by omega)).symm
    · rw [if_neg hcond]
      have : stop - i = 0 := by omega
      rw [this]
      exact (Nat.div_eq_of_lt (by omega)).symm

lemma chunkIndices_length {stop step : Nat} (hstep : 0 < step) :
    (chunkIndices stop step 0).length = (stop + step - 1) / step := by
  have := chunkIndicesFuel_length hstep (stop - 0) 0 stop (by omega)
  simpa [chunkIndices] using this

lemma chunk_strip_ne_nil {text : List Char} {S i : Nat} (hS : 0 < S)
    (hi : i < (pyWords text).length) :
    pyStrip (joinSpace (((pyWords text).drop i).take S)) ≠ [] := by
  have hdrop : (pyWords text).drop i ≠ [] := by
    intro h
    rw [List.drop_eq_nil_iff] at h
    omega
  rcases hd : (pyWords text).drop i with _ | ⟨w0, ws⟩
  · exact absurd hd hdrop
  · have hw0 : w0 ∈ pyWords text := by
      have : w0 ∈ (pyWords text).drop i := by rw [hd]; exact List.mem_cons_self _ _
      exact (List.drop_sublist i (pyWords text)).subset this
    have hw0ne : w0 ≠ [] := pyWords_ne_nil hw0
    rcases hw : w0 with _ | ⟨c0, cs⟩
    · exact absurd hw hw0ne
    · obtain ⟨S', rfl⟩ : ∃ S', S = S' + 1 := ⟨S - 1, by omega⟩
      rw [List.take_succ_cons]
      have hc0w : c0 ∈ w0 := by rw [hw]; exact List.mem_cons_self _ _
      have hc0 : pyIsSpace c0 = false := pyWords_nospace hw0 c0 hc0w
      exact pyStrip_ne_nil (mem_joinSpace_head _ (List.mem_cons_self _ _)) hc0

/-! ## C7 -/

/-- C7: the claim says `chunk_text` with `size ≤ overlap` is rejected as an
explicit error for every input.  The code only errors for `size = overlap`
(zero `range` step raises `ValueError`); for `size < overlap` the negative
step makes the loop body unreachable and the function silently returns an
empty chunk list.  This theorem exhibits both behaviours at the failing
input `("hello", size = 1, overlap = 2)`. -/
theorem C7_stride_misconfiguration :
    chunk_text "hello".data 2 2 = .error () ∧
    chunk_text "hello".data 1 2 = .ok [] := by
  constructor <;> rfl

/-! ## C8 -/

/-- C8: for a text of `W ≥ 1` whitespace-delimited words and parameters
`size S > overlap O ≥ 0`, `chunk_text` returns exactly
`⌈W / (S - O)⌉ = (W + (S - O) - 1) / (S - O)` chunks. -/
theorem C8_chunk_count (text : List Char) (S O : Nat) (hSO : O < S)
    (hW : 1 ≤ (pyWords text).length) :
    ∃ cs, chunk_text text S O = .ok cs ∧
      cs.length = ((pyWords text).length + (S - O) - 1) / (S - O) := by
  have hz : ¬ (((S : Int) - (O : Int)) = 0) := by omega
  have hneg : ¬ (((S : Int) - (O : Int)) < 0) := by omega
  have htn : ((S : Int) - (O : Int)).toNat = S - O := by omega
  unfold chunk_text
  rw [if_neg hz, if_neg hneg, htn]
  refine ⟨_, rfl, ?_⟩
  rw [List.filter_eq_self.mpr ?_]
  · rw [List.length_map, chunkIndices_length (by omega)]
  · intro c hc
    obtain ⟨i, hi, rfl⟩ := List.mem_map.mp hc
    have hilt : i < (pyWords text).length := chunkIndices_mem hi
    simpa using chunk_strip_ne_nil (by omega) hilt

/-- Witness for C8 at the concrete input `"a b c d e"`, `size = 2`,
`overlap = 1`: five words, stride one, so five chunks. -/
theorem C8_chunk_count_witness :
    1 ≤ (pyWords "a b c d e".data).length ∧
    ∃ cs, chunk_text "a b c d e".data 2 1 = .ok cs ∧
      cs.length = ((pyWords "a b c d e".data).length + (2 - 1) - 1) / (2 - 1) :=
  ⟨by decide, C8_chunk_count _ 2 1 (by decide) (by decide)⟩

/-! ## C9 -/

/-- C9 counterexample: the claim says any document with `1 ≤ W < size` words
yields a single chunk.  With `W = 5`, `size = 6`, `overlap = 4` the stride is
`2`, so the code produces three chunks. -/
theorem C9_counterexample :
    (pyWords "a b c d e".data).length < 6 ∧
    chunk_text "a b c d e".data 6 4 =
      .ok ["a b c d e".data, "c d e".data, "e".data] := by
  constructor
  · decide
  · rfl

/-- C9 (amended): a single all-words chunk is produced exactly when the word
count is at most the stride: for every text with `1 ≤ W ≤ size - overlap`
words (and `size > overlap ≥ 0`), `chunk_text` returns one chunk holding all
`W` words joined by single spaces. -/
theorem C9_short_doc_single_chunk (text : List Char) (S O : Nat) (hSO : O < S)
    (hW : 1 ≤ (pyWords text).length) (hle : (pyWords text).length ≤ S - O) :
    chunk_text text S O = .ok [joinSpace (pyWords text)] := by
  have hz : ¬ (((S : Int) - (O : Int)) = 0) := by omega
  have hneg : ¬ (((S : Int) - (O : Int)) < 0) := by omega
  have htn : ((S : Int) - (O : Int)).toNat = S - O := by omega
  unfold chunk_text
  rw [if_neg hz, if_neg hneg, htn]
  have hidx : chunkIndices (pyWords text).length (S - O) 0 = [0] := by
    unfold chunkIndices
    obtain ⟨f, hf⟩ : ∃ f, (pyWords text).length - 0 = f + 1 := ⟨(pyWords text).length - 1, by omega⟩
    rw [hf, chunkIndicesFuel, if_pos ⟨by omega, by omega⟩]
    cases f with
    | zero => rw [chunkIndicesFuel]
    | succ f2 =>
      rw [chunkIndicesFuel, if_neg]
      intro hcond
      omega
  rw [hidx]
  have htk : ((pyWords text).drop 0).take S = pyWords text := by
    rw [List.drop_zero]
    apply List.take_of_length_le
    omega
  rw [List.map_singleton, htk]
  rcases hwrd : pyWords text with _ | ⟨w0, ws⟩
  · rw [hwrd] at hW; simp at hW
  · have hw0 : w0 ∈ pyWords text := by rw [hwrd]; exact List.mem_cons_self _ _
    have hw0ne : w0 ≠ [] := pyWords_ne_nil hw0
    rcases hw : w0 with _ | ⟨c0, cs⟩
    · exact absurd hw hw0ne
    · have hc0w : c0 ∈ w0 := by rw [hw]; exact List.mem_cons_self _ _
      have hc0 : pyIsSpace c0 = false := pyWords_nospace hw0 c0 hc0w
      have hne : pyStrip (joinSpace ((c0 :: cs) :: ws)) ≠ [] :=
        pyStrip_ne_nil (mem_joinSpace_head _ (List.mem_cons_self _ _)) hc0
      rw [List.filter_cons, if_pos (by simpa using hne)]
      rfl

/-- Witness for C9 (amended) at `"a b c"`, `size = 5`, `overlap = 1`:
three words, stride four, one chunk with all words. -/
theorem C9_short_doc_single_chunk_witness :
    1 ≤ (pyWords "a b c".data).length ∧ (pyWords "a b c".data).length ≤ 5 - 1 ∧
    chunk_text "a b c".data 5 1 = .ok [joinSpace (pyWords "a b c".data)] :=
  ⟨by decide, by decide, C9_short_doc_single_chunk _ 5 1 (by decide) (by decide) (by decide)⟩

/-! ## Lemmas for the input guard -/

lemma startsWithL_exists {p : List Char} :
    ∀ {l : List Char}, startsWithL p l = true → ∃ post, l = p ++ post := by
  induction p with
  | nil => intro l _; exact ⟨l, rfl⟩
  | cons x xs ih =>
    intro l h
    cases l with
    | nil => simp [startsWithL] at h
    | cons c cs =>
      rw [startsWithL] at h
      by_cases hx : x = c
      · subst hx
        rw [if_pos rfl] at h
        obtain ⟨post, hpost⟩ := ih h
        exact ⟨post, by rw [hpost]; rfl⟩
      · rw [if_neg hx] at h
        cases h

lemma startsWithL_self_append : ∀ (p rest : List Char), startsWithL p (p ++ rest) = true := by
  intro p
  induction p with
  | nil => intro rest; rfl
  | cons x xs ih =>
    intro rest
    rw [List.cons_append, startsWithL, if_pos rfl]
    exact ih rest

lemma findSub_self_append (p rest : List Char) : findSub p (p ++ rest) = some 0 := by
  have hs : startsWithL p (p ++ rest) = true := startsWithL_self_append p rest
  cases h : p ++ rest with
  | nil =>
    rw [h] at hs
    rw [findSub, if_pos hs]
  | cons c cs =>
    rw [h] at hs
    rw [findSub, if_pos hs]

lemma containsSub_self_append (p rest : List Char) : containsSub p (p ++ rest) = true := by
  unfold containsSub
  rw [findSub_self_append]
  rfl

lemma findSub_decomp {sep : List Char} :
    ∀ {l : List Char} {i : Nat}, findSub sep l = some i →
      ∃ pre post, l = pre ++ sep ++ post := by
  intro l
  induction l with
  | nil =>
    intro i h
    rw [findSub] at h
    by_cases hs : startsWithL sep [] = true
    · obtain ⟨post, hpost⟩ := startsWithL_exists hs
      exact ⟨[], post, by simpa using hpost⟩
    · rw [if_neg hs] at h; cases h
  | cons c cs ih =>
    intro i h
    rw [findSub] at h
    by_cases hs : startsWithL sep (c :: cs) = true
    · obtain ⟨post, hpost⟩ := startsWithL_exists hs
      exact ⟨[], post, by simpa using hpost⟩
    · rw [if_neg hs] at h
      rcases hf : findSub sep cs with _ | j
      · rw [hf] at h; cases h
      · obtain ⟨pre, post, hdec⟩ := ih hf
        exact ⟨c :: pre, post, by rw [List.cons_append, List.cons_append, hdec]⟩

lemma containsSub_decomp {sep l : List Char} (h : containsSub sep l = true) :
    ∃ pre post, l = pre ++ sep ++ post := by
  unfold containsSub at h
  rcases hf : findSub sep l with _ | i
  · rw [hf] at h; cases h
  · exact findSub_decomp hf

lemma toLower_space {c : Char} (h : pyIsSpace c = true) : Char.toLower c = c := by
  have h6 : c = ' ' ∨ c = '\t' ∨ c = '\n' ∨ c = '\r' ∨ c = '\x0b' ∨ c = '\x0c' := by
    unfold pyIsSpace at h
    simp only [Bool.or_eq_true, beq_iff_eq] at h
    tauto
  obtain rfl | rfl | rfl | rfl | rfl | rfl := h6 <;> decide

lemma pyStrip_ne_nil_of_containsSub {p t : List Char}
    (hp : p.any (fun c => !(pyIsSpace c)) = true)
    (h : containsSub p (pyLower t) = true) : pyStrip t ≠ [] := by
  obtain ⟨c, hcp, hcs⟩ := List.any_eq_true.mp hp
  obtain ⟨pre, post, hdec⟩ := containsSub_decomp h
  have hcl : c ∈ pyLower t := by
    rw [hdec]
    exact List.mem_append_left _ (List.mem_append_right _ hcp)
  obtain ⟨c0, hc0t, hc0l⟩ := List.mem_map.mp hcl
  have hc0 : pyIsSpace c0 = false := by
    by_contra hcon
    have hsp : pyIsSpace c0 = true := by
      cases hx : pyIsSpace c0
      · exact absurd hx hcon
      · rfl
    rw [toLower_space hsp] at hc0l
    subst hc0l
    rw [hsp] at hcs
    cases hcs
  exact pyStrip_ne_nil hc0t hc0

/-! ## C5 -/

/-- C5 counterexample: the claim says every text of `max_length + 1`
characters is rejected with the length reason, but a whitespace-only text of
`max_length + 1` characters is rejected by the earlier emptiness rule with
the empty-input reason instead. -/
theorem C5_counterexample :
    ("   ".data).length = 2 + 1 ∧
    validate_input "   ".data 2 = (false, some emptyMsg) ∧
    emptyMsg ≠ lengthMsg 2 := by
  refine ⟨by decide, by decide, by decide⟩

/-- C5 (amended): `validate_input` evaluates empty → length → injection with
the first failing rule determining the reason, where the emptiness rule also
rejects whitespace-only text; every text of exactly `max_length` characters
that has non-whitespace content and contains no deny-list phrase is
accepted; and every such non-blank text of `max_length + 1` characters is
rejected with the length reason. -/
theorem C5_validation_rules :
    (∀ t ml, pyStrip t = [] → validate_input t ml = (false, some emptyMsg)) ∧
    (∀ t ml, pyStrip t ≠ [] → ml < t.length →
      validate_input t ml = (false, some (lengthMsg ml))) ∧
    (∀ t ml, pyStrip t ≠ [] → t.length ≤ ml → check_prompt_injection t = true →
      validate_input t ml = (false, some injectionMsg)) ∧
    (∀ t ml, pyStrip t ≠ [] → t.length = ml → check_prompt_injection t = false →
      validate_input t ml = (true, none)) ∧
    (∀ t ml, pyStrip t ≠ [] → t.length = ml + 1 →
      validate_input t ml = (false, some (lengthMsg ml))) := by
  have hne : ∀ (t : List Char), pyStrip t ≠ [] → ¬ (t = [] ∨ pyStrip t = []) := by
    rintro t h (rfl | h2)
    · exact h rfl
    · exact h h2
  refine ⟨?_, ?_, ?_, ?_, ?_⟩
  · intro t ml h
    unfold validate_input
    rw [if_pos (Or.inr h)]
  · intro t ml h1 h2
    unfold validate_input
    rw [if_neg (hne t h1), if_pos h2]
  · intro t ml h1 h2 h3
    unfold validate_input
    rw [if_neg (hne t h1), if_neg (by omega), if_pos h3]
  · intro t ml h1 h2 h3
    unfold validate_input
    rw [if_neg (hne t h1), if_neg (by omega), if_neg (by rw [h3]; exact Bool.false_ne_true)]
  · intro t ml h1 h2
    unfold validate_input
    rw [if_neg (hne t h1), if_pos (by omega)]

/-- Witness for C5 (amended), exercising all five rules at concrete inputs:
whitespace-only input, an over-long input, an injection of exactly the
maximum length, an accepted input of exactly the maximum length, and a
non-blank input one character over the maximum. -/
theorem C5_validation_rules_witness :
    validate_input "  ".data 5 = (false, some emptyMsg) ∧
    validate_input "abcdef".data 5 = (false, some (lengthMsg 5)) ∧
    validate_input "act as".data 6 = (false, some injectionMsg) ∧
    validate_input "ab".data 2 = (true, none) ∧
    validate_input "abc".data 2 = (false, some (lengthMsg 2)) :=
  ⟨C5_validation_rules.1 _ 5 (by decide),
   C5_validation_rules.2.1 _ 5 (by decide) (by decide),
   C5_validation_rules.2.2.1 _ 6 (by decide) (by decide) (by decide),
   C5_validation_rules.2.2.2.1 _ 2 (by decide) (by decide) (by decide),
   C5_validation_rules.2.2.2.2 _ 2 (by decide) (by decide)⟩

/-! ## C6 -/

/-- C6 counterexample: the claim says every text containing a deny-list
phrase is rejected with the injection reason, but a 2001-character text
containing "act as" exceeds the default maximum length 2000 and is rejected
by the earlier length rule instead. -/
theorem C6_counterexample :
    containsSub "act as".data (pyLower ("act as".data ++ List.replicate 1995 'x')) = true ∧
    ("act as".data ++ List.replicate 1995 'x').length = MAX_INPUT_LENGTH + 1 ∧
    validate_input ("act as".data ++ List.replicate 1995 'x') MAX_INPUT_LENGTH =
      (false, some (lengthMsg MAX_INPUT_LENGTH)) ∧
    lengthMsg MAX_INPUT_LENGTH ≠ injectionMsg := by
  have hlow : pyLower ("act as".data ++ List.replicate 1995 'x') =
      "act as".data ++ List.replicate 1995 'x' := by
    unfold pyLower
    rw [List.map_append, List.map_replicate]
    have h1 : ("act as".data).map Char.toLower = "act as".data := by decide
    have h2 : Char.toLower 'x' = 'x' := by decide
    rw [h1, h2]
  have hlen : ("act as".data ++ List.replicate 1995 'x').length = 2001 := by
    rw [List.length_append, List.length_replicate]
    decide
  have hstrip : pyStrip ("act as".data ++ List.replicate 1995 'x') ≠ [] := by
    have ha : 'a' ∈ "act as".data ++ List.replicate 1995 'x' :=
      List.mem_append_left _ (by decide : 'a' ∈ "act as".data)
    exact pyStrip_ne_nil ha (by decide)
  refine ⟨?_, ?_, ?_, by decide⟩
  · rw [hlow]
    exact containsSub_self_append _ _
  · rw [hlen]
    decide
  · unfold validate_input
    rw [if_neg ?_, if_pos (by rw [hlen]; decide)]
    rintro (h | h)
    · rw [h] at hlen
      simp at hlen
    · exact hstrip h

/-- C6 (amended): every text whose length is at most `max_length` and whose
lowercased form contains a deny-list phrase as a substring (i.e. the text
contains the phrase in any casing) is rejected by `validate_input` with the
injection reason.  (Such a text can never be all-whitespace because every
deny-list phrase contains non-whitespace characters.) -/
theorem C6_injection_rejected (t : List Char) (ml : Nat) (p : List Char)
    (hp : p ∈ PROMPT_INJECTION_PATTERNS)
    (hc : containsSub p (pyLower t) = true) (hl : t.length ≤ ml) :
    validate_input t ml = (false, some injectionMsg) := by
  have hpn : p.any (fun c => !(pyIsSpace c)) = true := by
    have hall : ∀ q ∈ PROMPT_INJECTION_PATTERNS, q.any (fun c => !(pyIsSpace c)) = true := by
      decide
    exact hall p hp
  have hstrip : pyStrip t ≠ [] := pyStrip_ne_nil_of_containsSub hpn hc
  have hinj : check_prompt_injection t = true := by
    unfold check_prompt_injection
    exact List.any_eq_true.mpr ⟨p, hp, hc⟩
  unfold validate_input
  rw [if_neg ?_, if_neg (by omega), if_pos hinj]
  rintro (rfl | h2)
  · exact hstrip rfl
  · exact hstrip h2

/-- Witness for C6 (amended): the upper-cased phrase "ACT AS" is caught by
the case-insensitive deny-list screen. -/
theorem C6_injection_rejected_witness :
    validate_input "please ACT AS a pirate".data 2000 = (false, some injectionMsg) :=
  C6_injection_rejected _ 2000 "act as".data (by decide) (by decide) (by decide)

/-! ## C10 -/

/-- C10: the claim says `parse_quiz` is total and in particular that a
`Correct:` line with nothing after the colon does not crash the parser.  In
the code `line.split(':')[1].strip().upper()[0]` raises `IndexError` on such
a line; on this six-line segment the parse aborts with an exception
(modelled `.error ()`) instead of returning a question list. -/
theorem C10_bare_correct_crashes :
    parse_quiz "Q: What is X?\nA) a\nB) b\nC) c\nD) d\nCorrect:".data = .error () := by
  rfl

/-! ## Lemmas for the quiz parser -/

lemma startsWithL_ne_head {p c : Char} {ps cs : List Char} (h : p ≠ c) :
    startsWithL (p :: ps) (c :: cs) = false := by
  rw [startsWithL, if_neg h]

lemma ordPfx_vals : ordPfx 1 = ['1', '.'] ∧ ordPfx 2 = ['2', '.'] ∧ ordPfx 3 = ['3', '.'] := by
  refine ⟨by decide, by decide, by decide⟩

lemma dropWhile_append_all {p : Char → Bool} :
    ∀ {l1 l2 : List Char}, (∀ x ∈ l1, p x = true) →
      (l1 ++ l2).dropWhile p = l2.dropWhile p := by
  intro l1
  induction l1 with
  | nil => intro l2 _; rfl
  | cons x xs ih =>
    intro l2 h
    rw [List.cons_append, List.dropWhile_cons, if_pos (h x (List.mem_cons_self _ _))]
    exact ih (fun y hy => h y (List.mem_cons_of_mem _ hy))

lemma afterChar_append {c : Char} {l1 r : List Char} (h : ∀ x ∈ l1, x ≠ c) :
    afterChar c (l1 ++ c :: r) = r := by
  unfold afterChar
  rw [dropWhile_append_all (fun x hx => by simpa using h x hx)]
  rw [List.dropWhile_cons, if_neg (by simp)]
  rfl

lemma splitChar_append_of_not_mem {c : Char} :
    ∀ {l1 r : List Char}, (∀ x ∈ l1, x ≠ c) →
      splitChar c (l1 ++ c :: r) = l1 :: splitChar c r := by
  intro l1
  induction l1 with
  | nil =>
    intro r _
    rw [List.nil_append, splitChar, if_pos rfl]
  | cons x xs ih =>
    intro r h
    rw [List.cons_append, splitChar, if_neg (h x (List.mem_cons_self _ _)),
      ih (fun y hy => h y (List.mem_cons_of_mem _ hy))]

lemma splitChar_head (c : Char) :
    ∀ l : List Char, ∃ t, splitChar c l = (l.takeWhile (fun x => decide (x ≠ c))) :: t := by
  intro l
  induction l with
  | nil => exact ⟨[], rfl⟩
  | cons x xs ih =>
    by_cases hx : x = c
    · subst hx
      refine ⟨splitChar x xs, ?_⟩
      rw [splitChar, if_pos rfl, List.takeWhile_cons, if_neg (by simp)]
    · obtain ⟨t, ht⟩ := ih
      refine ⟨t, ?_⟩
      rw [splitChar, if_neg hx, ht, List.takeWhile_cons, if_pos (by simpa using hx)]

lemma containsC_cons_self (c : Char) (l : List Char) : containsC c (c :: l) = true := by
  unfold containsC
  rw [List.any_cons]
  simp

/-- Evaluation of `processLine` on a `Q:`-line. -/
lemma processLine_q (i : Nat) (q : Question) (rq : List Char) :
    processLine i q (qPfx ++ rq) = .ok { q with question := pyStrip rq } := by
  unfold processLine
  have h1 : startsWithL qPfx (qPfx ++ rq) = true := startsWithL_self_append _ _
  rw [h1]
  have hcol : containsC ':' (qPfx ++ rq) = true := by
    show containsC ':' ('Q' :: ':' :: rq) = true
    unfold containsC
    rw [List.any_cons, List.any_cons]
    simp
  have hafter : afterChar ':' (qPfx ++ rq) = rq :=
    @afterChar_append ':' ['Q'] rq (by decide)
  simp [h1, hcol, hafter]

lemma isEmpty_false_of_ne_nil {l : List Char} (h : l ≠ []) : l.isEmpty = false := by
  cases hl : l with
  | nil => exact absurd hl h
  | cons a b => rfl

/-- Evaluation of `processLine` on an `A)`-line once a question is set. -/
lemma processLine_optA (i : Nat) (hi : i = 1 ∨ i = 2 ∨ i = 3) (q : Question)
    (hqne : q.question ≠ []) (r : List Char) :
    processLine i q (aPfx ++ r) =
      .ok { q with options := dictSet 'A' (pyStrip r) q.options } := by
  have hqe : q.question.isEmpty = false := isEmpty_false_of_ne_nil hqne
  rcases hi with rfl | rfl | rfl <;>
    simp [processLine, hqe, ordPfx_vals.1, ordPfx_vals.2.1, ordPfx_vals.2.2,
      qPfx, aPfx, bPfx, cPfx, dPfx, correctPfx, explPfx, startsWithL]

/-- Evaluation of `processLine` on a `B)`-line once a question is set. -/
lemma processLine_optB (i : Nat) (hi : i = 1 ∨ i = 2 ∨ i = 3) (q : Question)
    (hqne : q.question ≠ []) (r : List Char) :
    processLine i q (bPfx ++ r) =
      .ok { q with options := dictSet 'B' (pyStrip r) q.options } := by
  have hqe : q.question.isEmpty = false := isEmpty_false_of_ne_nil hqne
  rcases hi with rfl | rfl | rfl <;>
    simp [processLine, hqe, ordPfx_vals.1, ordPfx_vals.2.1, ordPfx_vals.2.2,
      qPfx, aPfx, bPfx, cPfx, dPfx, correctPfx, explPfx, startsWithL]

/-- Evaluation of `processLine` on a `C)`-line once a question is set. -/
lemma processLine_optC (i : Nat) (hi : i = 1 ∨ i = 2 ∨ i = 3) (q : Question)
    (hqne : q.question ≠ []) (r : List Char) :
    processLine i q (cPfx ++ r) =
      .ok { q with options := dictSet 'C' (pyStrip r) q.options } := by
  have hqe : q.question.isEmpty = false := isEmpty_false_of_ne_nil hqne
  rcases hi with rfl | rfl | rfl <;>
    simp [processLine, hqe, ordPfx_vals.1, ordPfx_vals.2.1, ordPfx_vals.2.2,
      qPfx, aPfx, bPfx, cPfx, dPfx, correctPfx, explPfx, startsWithL]

/-- Evaluation of `processLine` on a `D)`-line once a question is set. -/
lemma processLine_optD (i : Nat) (hi : i = 1 ∨ i = 2 ∨ i = 3) (q : Question)
    (hqne : q.question ≠ []) (r : List Char) :
    processLine i q (dPfx ++ r) =
      .ok { q with options := dictSet 'D' (pyStrip r) q.options } := by
  have hqe : q.question.isEmpty = false := isEmpty_false_of_ne_nil hqne
  rcases hi with rfl | rfl | rfl <;>
    simp [processLine, hqe, ordPfx_vals.1, ordPfx_vals.2.1, ordPfx_vals.2.2,
      qPfx, aPfx, bPfx, cPfx, dPfx, correctPfx, explPfx, startsWithL]

/-- Evaluation of `processLine` on a `Correct:`-line: the code takes the text
between the first and second colons, strips and upper-cases it, and indexes
its first character (raising on an empty result). -/
lemma processLine_correct_line (i : Nat) (hi : i = 1 ∨ i = 2 ∨ i = 3) (q : Question)
    (rc : List Char)
    (hq : (q.question.isEmpty && containsC '?' (correctPfx ++ rc)) = false) :
    processLine i q (correctPfx ++ rc) =
      match pyUpper (pyStrip (rc.takeWhile (fun x => decide (x ≠ ':')))) with
      | [] => .error ()
      | ch :: _ => .ok { q with correct := [ch] } := by
  obtain ⟨t, ht⟩ := splitChar_head ':' rc
  have hsplit : splitChar ':' (correctPfx ++ rc) =
      ['C', 'o', 'r', 'r', 'e', 'c', 't'] :: (rc.takeWhile (fun x => decide (x ≠ ':'))) :: t := by
    rw [show correctPfx ++ rc = ['C', 'o', 'r', 'r', 'e', 'c', 't'] ++ ':' :: rc from rfl,
      splitChar_append_of_not_mem (by decide), ht]
  have hq2 : ¬ ((startsWithL qPfx (correctPfx ++ rc) ||
      startsWithL (ordPfx i) (correctPfx ++ rc) ||
      (q.question.isEmpty && containsC '?' (correctPfx ++ rc))) = true) := by
    rcases hi with rfl | rfl | rfl
    all_goals
      intro h
      have h2 : (q.question.isEmpty && containsC '?' (correctPfx ++ rc)) = true := h
      rw [hq] at h2
      exact absurd h2 (by decide)
  unfold processLine
  rw [if_neg hq2,
    if_neg (show ¬ (startsWithL aPfx (correctPfx ++ rc) = true) from
      fun h => Bool.false_ne_true h),
    if_neg (show ¬ (startsWithL bPfx (correctPfx ++ rc) = true) from
      fun h => Bool.false_ne_true h),
    if_neg (show ¬ (startsWithL cPfx (correctPfx ++ rc) = true) from
      fun h => Bool.false_ne_true h),
    if_neg (show ¬ (startsWithL dPfx (correctPfx ++ rc) = true) from
      fun h => Bool.false_ne_true h),
    if_pos (startsWithL_self_append correctPfx rc),
    hsplit]

/-- Evaluation of `processLine` on an `Explanation:`-line once a question is
set. -/
lemma processLine_expl (i : Nat) (hi : i = 1 ∨ i = 2 ∨ i = 3) (q : Question)
    (hqne : q.question ≠ []) (r : List Char) :
    processLine i q (explPfx ++ r) = .ok { q with explanation := pyStrip r } := by
  have hqe : q.question.isEmpty = false := isEmpty_false_of_ne_nil hqne
  have hafter : afterChar ':'
      ('E' :: 'x' :: 'p' :: 'l' :: 'a' :: 'n' :: 'a' :: 't' :: 'i' :: 'o' :: 'n' :: ':' :: r) = r := by
    rw [show ('E' :: 'x' :: 'p' :: 'l' :: 'a' :: 'n' :: 'a' :: 't' :: 'i' :: 'o' :: 'n' :: ':' :: r : List Char) =
        ['E', 'x', 'p', 'l', 'a', 'n', 'a', 't', 'i', 'o', 'n'] ++ ':' :: r from rfl]
    exact afterChar_append (by decide)
  rcases hi with rfl | rfl | rfl <;>
    simp [processLine, hqe, hafter, ordPfx_vals.1, ordPfx_vals.2.1, ordPfx_vals.2.2,
      qPfx, aPfx, bPfx, cPfx, dPfx, correctPfx, explPfx, startsWithL]

lemma processLines_cons (i : Nat) (q : Question) (l : List Char) (rest : List (List Char)) :
    processLines i q (l :: rest) =
      match processLine i q l with
      | .error e => .error e
      | .ok q2 => processLines i q2 rest := rfl

lemma processLines_step {i : Nat} {q q2 : Question} {l : List Char}
    {rest : List (List Char)} (h : processLine i q l = .ok q2) :
    processLines i q (l :: rest) = processLines i q2 rest := by
  rw [processLines_cons, h]

lemma question_and_false {q : Question} (h : q.question ≠ []) (l : List Char) :
    (q.question.isEmpty && containsC '?' l) = false := by
  rw [isEmpty_false_of_ne_nil h, Bool.false_and]

lemma toUpper_abcd {c : Char} (h : c ∈ abcd) : Char.toUpper c = c := by
  have h2 : c = 'A' ∨ c = 'B' ∨ c = 'C' ∨ c = 'D' := by simpa [abcd] using h
  obtain rfl | rfl | rfl | rfl := h2 <;> decide

lemma processLines_wf_tail (i : Nat) (hi : i = 1 ∨ i = 2 ∨ i = 3) (q : Question)
    (hq : q.question ≠ []) (rcor rex : List Char) :
    processLines i q ((correctPfx ++ rcor) :: (explPfx ++ rex) :: []) =
      match pyUpper (pyStrip (rcor.takeWhile (fun x => decide (x ≠ ':')))) with
      | [] => .error ()
      | ch :: _ => .ok { q with correct := [ch], explanation := pyStrip rex } := by
  rcases hup : pyUpper (pyStrip (rcor.takeWhile (fun x => decide (x ≠ ':')))) with _ | ⟨ch, tl⟩
  · have hc : processLine i q (correctPfx ++ rcor) = .error () := by
      rw [processLine_correct_line i hi q rcor (question_and_false hq _), hup]
    rw [processLines_cons, hc]
  · have hc : processLine i q (correctPfx ++ rcor) = .ok { q with correct := [ch] } := by
      rw [processLine_correct_line i hi q rcor (question_and_false hq _), hup]
    rw [processLines_step hc,
      processLines_step (processLine_expl i hi { q with correct := [ch] }
        (show ({ q with correct := [ch] } : Question).question ≠ [] from hq) rex)]
    rfl

lemma processLines_wf (i : Nat) (hi : i = 1 ∨ i = 2 ∨ i = 3) (w : WFSeg)
    (hrq : pyStrip w.rq ≠ []) :
    processLines i (initQ i) (wfLines w) =
      match pyUpper (pyStrip (w.rcor.takeWhile (fun x => decide (x ≠ ':')))) with
      | [] => .error ()
      | ch :: _ => .ok ⟨i, pyStrip w.rq,
          [('A', pyStrip w.ra), ('B', pyStrip w.rb), ('C', pyStrip w.rc), ('D', pyStrip w.rd)],
          [ch], pyStrip w.rex⟩ := by
  unfold wfLines
  rw [processLines_step (processLine_q i (initQ i) w.rq),
    processLines_step (processLine_optA i hi _ hrq w.ra),
    processLines_step (processLine_optB i hi _ hrq w.rb),
    processLines_step (processLine_optC i hi _ hrq w.rc),
    processLines_step (processLine_optD i hi _ hrq w.rd),
    processLines_wf_tail i hi _ hrq w.rcor w.rex]
  rfl

lemma parseSection_eval {i : Nat} {s : List Char} {q : Question}
    (hlen : ¬ ((pyLines s).length < 6))
    (hpl : processLines i (initQ i) (pyLines s) = .ok q) :
    parseSection i s =
      if q.question ≠ [] ∧ q.options ≠ [] ∧ q.correct ∈ correctChoices then
        if (q.options.filter (fun kv => decide (kv.1 ∈ abcd))).length = 4 then
          .ok (some { q with options := q.options.filter (fun kv => decide (kv.1 ∈ abcd)) })
        else .ok none
      else .ok none := by
  unfold parseSection
  rw [if_neg hlen, hpl]

lemma parseSection_wf (i : Nat) (hi : i = 1 ∨ i = 2 ∨ i = 3) (s : List Char) (w : WFSeg)
    (h : WFSegOk s w) : parseSection i s = .ok (some (wfQuestion i w)) := by
  obtain ⟨hlines, hrq, hcor, hlet⟩ := h
  have hup : pyUpper (pyStrip (w.rcor.takeWhile (fun x => decide (x ≠ ':')))) = [w.letter] := by
    rw [hcor]
    show List.map Char.toUpper [w.letter] = [w.letter]
    rw [List.map_singleton, toUpper_abcd hlet]
  have hlen : ¬ ((pyLines s).length < 6) := by
    rw [hlines]
    simp [wfLines]
  have hpl : processLines i (initQ i) (pyLines s) =
      .ok ⟨i, pyStrip w.rq,
        [('A', pyStrip w.ra), ('B', pyStrip w.rb), ('C', pyStrip w.rc), ('D', pyStrip w.rd)],
        [w.letter], pyStrip w.rex⟩ := by
    rw [hlines, processLines_wf i hi w hrq, hup]
  have hlet4 : w.letter = 'A' ∨ w.letter = 'B' ∨ w.letter = 'C' ∨ w.letter = 'D' := by
    simpa [abcd] using hlet
  have hmem : ([w.letter] : List Char) ∈ correctChoices := by
    obtain h | h | h | h := hlet4 <;> rw [h] <;> decide
  rw [parseSection_eval hlen hpl, if_pos ⟨hrq, List.cons_ne_nil _ _, hmem⟩]
  rfl

lemma mem_dictSet_keys {x k : Char} {v : List Char} :
    ∀ {o : List (Char × List Char)}, x ∈ (dictSet k v o).map Prod.fst →
      x = k ∨ x ∈ o.map Prod.fst := by
  intro o
  induction o with
  | nil =>
    intro h
    simp [dictSet] at h
    exact Or.inl h
  | cons kv2 rest ih =>
    obtain ⟨k2, v2⟩ := kv2
    intro h
    rw [dictSet] at h
    by_cases hk : k2 = k
    · rw [if_pos hk] at h
      rcases List.mem_cons.mp h with he | hmem
      · exact Or.inl he
      · exact Or.inr (by rw [List.map_cons]; exact List.mem_cons_of_mem _ hmem)
    · rw [if_neg hk] at h
      rcases List.mem_cons.mp h with he | hmem
      · exact Or.inr (by rw [he, List.map_cons]; exact List.mem_cons_self _ _)
      · rcases ih hmem with he | hmem2
        · exact Or.inl he
        · exact Or.inr (by rw [List.map_cons]; exact List.mem_cons_of_mem _ hmem2)

lemma not_mem_dictSet_keys {x k : Char} {v : List Char} (hxk : x ≠ k)
    {o : List (Char × List Char)} (hx : x ∉ o.map Prod.fst) :
    x ∉ (dictSet k v o).map Prod.fst := by
  intro hmem
  rcases mem_dictSet_keys hmem with he | hmem2
  · exact hxk he
  · exact hx hmem2

lemma dictSet_keys_nodup {k : Char} {v : List Char} :
    ∀ {o : List (Char × List Char)}, (o.map Prod.fst).Nodup →
      ((dictSet k v o).map Prod.fst).Nodup := by
  intro o
  induction o with
  | nil => intro _; simp [dictSet]
  | cons kv2 rest ih =>
    obtain ⟨k2, v2⟩ := kv2
    intro h
    rw [List.map_cons, List.nodup_cons] at h
    rw [dictSet]
    by_cases hk : k2 = k
    · rw [if_pos hk, List.map_cons, List.nodup_cons]
      exact ⟨by rw [← hk]; exact h.1, h.2⟩
    · rw [if_neg hk, List.map_cons, List.nodup_cons]
      refine ⟨?_, ih h.2⟩
      intro hmem
      rcases mem_dictSet_keys hmem with he | hmem2
      · exact hk he
      · exact h.1 hmem2

lemma processLine_keysOk {i : Nat} {q : Question} {line : List Char} {q2 : Question}
    (h : processLine i q line = .ok q2)
    (hnd : (q.options.map Prod.fst).Nodup)
    (hsub : ∀ x ∈ q.options.map Prod.fst, x ∈ abcd) :
    (q2.options.map Prod.fst).Nodup ∧ ∀ x ∈ q2.options.map Prod.fst, x ∈ abcd := by
  unfold processLine at h
  repeat' split at h
  all_goals first
    | exact Except.noConfusion h
    | (injection h with h2
       subst h2
       exact ⟨hnd, hsub⟩)
    | (injection h with h2
       subst h2
       exact ⟨dictSet_keys_nodup hnd,
         fun x hx => (mem_dictSet_keys hx).elim (fun he => by rw [he]; decide) (hsub x)⟩)

lemma processLine_noD {i : Nat} {q : Question} {line : List Char} {q2 : Question}
    (h : processLine i q line = .ok q2)
    (hline : startsWithL dPfx line = false)
    (hd : 'D' ∉ q.options.map Prod.fst) : 'D' ∉ q2.options.map Prod.fst := by
  unfold processLine at h
  repeat' split at h
  all_goals first
    | exact Except.noConfusion h
    | (injection h with h2
       subst h2
       exact hd)
    | (injection h with h2
       subst h2
       exact not_mem_dictSet_keys (by decide) hd)
    | (exact absurd ‹startsWithL dPfx line = true› (by simp [hline]))

lemma processLines_keysOk :
    ∀ (lines : List (List Char)) (i : Nat) (q q2 : Question),
      processLines i q lines = .ok q2 →
      (q.options.map Prod.fst).Nodup →
      (∀ x ∈ q.options.map Prod.fst, x ∈ abcd) →
      (q2.options.map Prod.fst).Nodup ∧ ∀ x ∈ q2.options.map Prod.fst, x ∈ abcd := by
  intro lines
  induction lines with
  | nil =>
    intro i q q2 h hnd hsub
    injection h with h2
    subst h2
    exact ⟨hnd, hsub⟩
  | cons l rest ih =>
    intro i q q2 h hnd hsub
    rw [processLines_cons] at h
    rcases hpl : processLine i q l with e | qm
    · rw [hpl] at h
      exact Except.noConfusion h
    · rw [hpl] at h
      obtain ⟨hnd2, hsub2⟩ := processLine_keysOk hpl hnd hsub
      exact ih i qm q2 h hnd2 hsub2

lemma processLines_noD :
    ∀ (lines : List (List Char)) (i : Nat) (q q2 : Question),
      processLines i q lines = .ok q2 →
      (∀ l ∈ lines, startsWithL dPfx l = false) →
      'D' ∉ q.options.map Prod.fst →
      'D' ∉ q2.options.map Prod.fst := by
  intro lines
  induction lines with
  | nil =>
    intro i q q2 h _ hd
    injection h with h2
    subst h2
    exact hd
  | cons l rest ih =>
    intro i q q2 h hall hd
    rw [processLines_cons] at h
    rcases hpl : processLine i q l with e | qm
    · rw [hpl] at h
      exact Except.noConfusion h
    · rw [hpl] at h
      exact ih i qm q2 h (fun x hx => hall x (List.mem_cons_of_mem _ hx))
        (processLine_noD hpl (hall l (List.mem_cons_self _ _)) hd)

lemma parseSection_noD (i : Nat) (sec : List Char)
    (hnd : ∀ l ∈ pyLines sec, startsWithL dPfx l = false) (q : Question) :
    parseSection i sec ≠ .ok (some q) := by
  intro hps
  unfold parseSection at hps
  by_cases hlen : (pyLines sec).length < 6
  · rw [if_pos hlen] at hps
    exact Option.noConfusion (Except.ok.inj hps)
  · rw [if_neg hlen] at hps
    rcases hproc : processLines i (initQ i) (pyLines sec) with e | q0
    · rw [hproc] at hps
      exact Except.noConfusion hps
    · rw [hproc] at hps
      dsimp only [] at hps
      obtain ⟨hnd0, hsub0⟩ :=
        processLines_keysOk _ i _ _ hproc (by simp [initQ]) (by simp [initQ])
      have hD : 'D' ∉ q0.options.map Prod.fst :=
        processLines_noD _ i _ _ hproc hnd (by simp [initQ])
      have hsub3 : q0.options.map Prod.fst ⊆ (['A', 'B', 'C'] : List Char) := by
        intro x hx
        have hx4 : x ∈ abcd := hsub0 x hx
        have hxD : x ≠ 'D' := fun he => hD (he ▸ hx)
        have hx4' : x = 'A' ∨ x = 'B' ∨ x = 'C' ∨ x = 'D' := by simpa [abcd] using hx4
        obtain rfl | rfl | rfl | rfl := hx4'
        · decide
        · decide
        · decide
        · exact absurd rfl hxD
      have hlen3 : (q0.options.map Prod.fst).length ≤ 3 :=
        le_trans (List.subperm_of_subset hnd0 hsub3).length_le (by decide)
      have hlenopt : q0.options.length ≤ 3 := by simpa using hlen3
      have hfil : (q0.options.filter (fun kv => decide (kv.1 ∈ abcd))).length ≤ 3 :=
        le_trans (List.length_filter_le _ _) hlenopt
      split_ifs at hps with hgate hfour
      · omega
      · exact Option.noConfusion (Except.ok.inj hps)
      · exact Option.noConfusion (Except.ok.inj hps)

lemma parseSection_valid (i : Nat) (sec : List Char) (q : Question)
    (hps : parseSection i sec = .ok (some q)) :
    q.question ≠ [] ∧ q.correct ∈ correctChoices ∧ q.options.length = 4 ∧
      (q.options.map Prod.fst).Perm abcd := by
  unfold parseSection at hps
  by_cases hlen : (pyLines sec).length < 6
  · rw [if_pos hlen] at hps
    exact absurd (Except.ok.inj hps) (by simp)
  · rw [if_neg hlen] at hps
    rcases hproc : processLines i (initQ i) (pyLines sec) with e | q0
    · rw [hproc] at hps
      exact Except.noConfusion hps
    · rw [hproc] at hps
      dsimp only [] at hps
      obtain ⟨hnd0, hsub0⟩ :=
        processLines_keysOk _ i _ _ hproc (by simp [initQ]) (by simp [initQ])
      split_ifs at hps with hgate hfour
      · have hq : q = { q0 with options := q0.options.filter (fun kv => decide (kv.1 ∈ abcd)) } :=
          (Option.some.inj (Except.ok.inj hps)).symm
        subst hq
        refine ⟨hgate.1, hgate.2.2, hfour, ?_⟩
        have hsubl : List.Sublist
            ((q0.options.filter (fun kv => decide (kv.1 ∈ abcd))).map Prod.fst)
            (q0.options.map Prod.fst) :=
          (List.filter_sublist _).map Prod.fst
        have hndf : ((q0.options.filter (fun kv => decide (kv.1 ∈ abcd))).map Prod.fst).Nodup :=
          hnd0.sublist hsubl
        have hsubf : (q0.options.filter (fun kv => decide (kv.1 ∈ abcd))).map Prod.fst ⊆ abcd :=
          fun x hx => hsub0 x (hsubl.subset hx)
        have hsp := List.subperm_of_subset hndf hsubf
        refine hsp.perm_of_length_le ?_
        have : ((q0.options.filter (fun kv => decide (kv.1 ∈ abcd))).map Prod.fst).length = 4 := by
          simpa using hfour
        rw [this]
        decide
      · exact absurd (Except.ok.inj hps) (by simp)
      · exact absurd (Except.ok.inj hps) (by simp)

lemma parseSections_cons (i : Nat) (s : List Char) (rest : List (List Char)) :
    parseSections i (s :: rest) =
      match parseSection i s with
      | .error e => .error e
      | .ok q? =>
        match parseSections (i + 1) rest with
        | .error e => .error e
        | .ok qs => .ok (match q? with | some q => q :: qs | none => qs) := rfl

lemma parseSections_step (j : Nat) {i : Nat} {s : List Char}
    {rest : List (List Char)} {q? : Option Question}
    (hj : i + 1 = j) (h : parseSection i s = .ok q?) :
    parseSections i (s :: rest) =
      match parseSections j rest with
      | .error e => .error e
      | .ok qs => .ok (consOpt q? qs) := by
  subst hj
  rw [parseSections_cons]
  simp only [h]
  rfl

lemma WFSegOk_strip_ne {s : List Char} {w : WFSeg} (h : WFSegOk s w) :
    pyStrip s ≠ [] := by
  intro hnil
  have h1 := h.1
  unfold pyLines at h1
  rw [hnil] at h1
  have h2 : ([] : List (List Char)) = wfLines w := h1
  simp [wfLines] at h2

/-! ## C1 -/

/-- C1: (1) for every generated text whose split on `---` yields exactly 3
well-formed segments, `parse_quiz` returns exactly those 3 questions, whose
correct letters match the input letters and whose options are keyed exactly
`['A','B','C','D']`; (2) a segment none of whose lines starts with `D)`
never yields a question; (3) a section yields a question only if its question
text is non-empty, its correct letter is one of A-D, and exactly four options
keyed exactly {A,B,C,D} were parsed. -/
theorem C1_parse_quiz_contract :
    (∀ (text s1 s2 s3 : List Char) (w1 w2 w3 : WFSeg),
      pySplitSub dashes text = [s1, s2, s3] →
      WFSegOk s1 w1 → WFSegOk s2 w2 → WFSegOk s3 w3 →
      parse_quiz text = .ok [wfQuestion 1 w1, wfQuestion 2 w2, wfQuestion 3 w3] ∧
      (wfQuestion 1 w1).correct = [w1.letter] ∧ (wfQuestion 2 w2).correct = [w2.letter] ∧
      (wfQuestion 3 w3).correct = [w3.letter] ∧
      (wfQuestion 1 w1).options.map Prod.fst = abcd ∧
      (wfQuestion 2 w2).options.map Prod.fst = abcd ∧
      (wfQuestion 3 w3).options.map Prod.fst = abcd) ∧
    (∀ (i : Nat) (sec : List Char),
      (∀ l ∈ pyLines sec, startsWithL dPfx l = false) →
      ∀ q : Question, parseSection i sec ≠ .ok (some q)) ∧
    (∀ (i : Nat) (sec : List Char) (q : Question),
      parseSection i sec = .ok (some q) →
      q.question ≠ [] ∧ q.correct ∈ correctChoices ∧ q.options.length = 4 ∧
      (q.options.map Prod.fst).Perm abcd) := by
  refine ⟨?_, parseSection_noD, parseSection_valid⟩
  intro text s1 s2 s3 w1 w2 w3 hsplit hw1 hw2 hw3
  refine ⟨?_, rfl, rfl, rfl, rfl, rfl, rfl⟩
  have hf1 := decide_eq_true (WFSegOk_strip_ne hw1)
  have hf2 := decide_eq_true (WFSegOk_strip_ne hw2)
  have hf3 := decide_eq_true (WFSegOk_strip_ne hw3)
  have hfl : ((pySplitSub dashes text).filter (fun s => decide (pyStrip s ≠ []))).take 3 =
      [s1, s2, s3] := by
    rw [hsplit, List.filter_cons, if_pos hf1, List.filter_cons, if_pos hf2,
      List.filter_cons, if_pos hf3]
    rfl
  unfold parse_quiz
  rw [hfl,
    parseSections_step 2 rfl (parseSection_wf 1 (Or.inl rfl) s1 w1 hw1),
    parseSections_step 3 rfl (parseSection_wf 2 (Or.inr (Or.inl rfl)) s2 w2 hw2),
    parseSections_step 4 rfl (parseSection_wf 3 (Or.inr (Or.inr rfl)) s3 w3 hw3)]
  rfl

set_option maxRecDepth 8000 in
/-- Witness for C1 at the concrete three-segment text above, a concrete
segment with no `D)` line, and a concrete successfully parsed section. -/
theorem C1_parse_quiz_contract_witness :
    parse_quiz c1Text = .ok [wfQuestion 1 c1W1, wfQuestion 2 c1W2, wfQuestion 3 c1W3] ∧
    parseSection 1 c1NoD ≠ .ok (some (wfQuestion 1 c1W1)) ∧
    ((wfQuestion 1 c1W1).question ≠ [] ∧ (wfQuestion 1 c1W1).correct ∈ correctChoices ∧
      (wfQuestion 1 c1W1).options.length = 4 ∧
      ((wfQuestion 1 c1W1).options.map Prod.fst).Perm abcd) :=
  ⟨(C1_parse_quiz_contract.1 c1Text c1Seg1 c1Seg2 c1Seg3 c1W1 c1W2 c1W3
      (by decide) (by decide) (by decide) (by decide)).1,
   C1_parse_quiz_contract.2.1 1 c1NoD (by decide) (wfQuestion 1 c1W1),
   C1_parse_quiz_contract.2.2 1 c1Seg1 (wfQuestion 1 c1W1) (by decide)⟩

/-! ## C4 -/

set_option maxRecDepth 8000 in
/-- C4 counterexample: on the line `Correct: The answer is B` the claim's
rule (first uppercase A-D character after the colon) gives `B`, but the code
takes the first character of the stripped upper-cased text after the colon,
which is `T`; since `T ∉ {A,B,C,D}`, an otherwise well-formed segment
containing this line yields no question at all. -/
theorem C4_counterexample :
    specCorrectLetter "Correct: The answer is B".data = some 'B' ∧
    processLine 1 ⟨1, "What is X?".data, [], [], []⟩ "Correct: The answer is B".data =
      .ok ⟨1, "What is X?".data, [], ['T'], []⟩ ∧
    parse_quiz
      "Q: What is X?\nA) a\nB) b\nC) c\nD) d\nCorrect: The answer is B\nExplanation: e".data =
      .ok [] ∧
    ('T' : Char) ≠ 'B' := by
  refine ⟨by decide, by decide, by decide, by decide⟩

/-- C4 (amended): for a segment line `Correct:<rc>` that is not captured by
the question rule, the parsed correct letter is the first character of the
stripped, upper-cased text between the first colon and any second colon: if
that text is empty the parser raises an error (modelled `.error ()`), and
otherwise the letter is its first character (whether or not it lies in
{A,B,C,D}; the validity gate later drops the segment when it does not). -/
theorem C4_correct_letter_rule (i : Nat) (hi : i = 1 ∨ i = 2 ∨ i = 3) (q : Question)
    (rc : List Char)
    (hnotq : (q.question.isEmpty && containsC '?' (correctPfx ++ rc)) = false) :
    (pyUpper (pyStrip (rc.takeWhile (fun x => decide (x ≠ ':')))) = [] →
      processLine i q (correctPfx ++ rc) = .error ()) ∧
    (∀ ch tl, pyUpper (pyStrip (rc.takeWhile (fun x => decide (x ≠ ':')))) = ch :: tl →
      processLine i q (correctPfx ++ rc) = .ok { q with correct := [ch] }) := by
  constructor
  · intro h
    rw [processLine_correct_line i hi q rc hnotq, h]
  · intro ch tl h
    rw [processLine_correct_line i hi q rc hnotq, h]

/-- Witness for C4 (amended) at the line `Correct: B` (yielding letter `B`)
and at the bare line `Correct:` (raising). -/
theorem C4_correct_letter_rule_witness :
    processLine 1 ⟨1, "What is X?".data, [], [], []⟩ (correctPfx ++ " B".data) =
      .ok { (⟨1, "What is X?".data, [], [], []⟩ : Question) with correct := ['B'] } ∧
    processLine 1 ⟨1, "What is X?".data, [], [], []⟩ (correctPfx ++ [] : List Char) =
      .error () :=
  ⟨(C4_correct_letter_rule 1 (Or.inl rfl) _ " B".data (by decide)).2 'B' [] (by decide),
   (C4_correct_letter_rule 1 (Or.inl rfl) _ [] (by decide)).1 (by decide)⟩

set_option maxRecDepth 8000 in
/-- C2 counterexample: the claim says the second retry's expanded context is
the first 15 filtered lines in their original, unshuffled order.  The code
shuffles `filtered_sentences` in place before the retries, so the expanded
context is built from the first 15 lines of the shuffled list: with a
reversing shuffle the third call's context is the reversed join, which
differs from the unshuffled join. -/
theorem C2_counterexample :
    ((generate_quiz c2Filtered List.reverse "P".data (fun _ => [])).1.getD 2 ⟨[], []⟩).ctx =
      joinNL ((List.reverse c2Filtered).take 15) ∧
    ((generate_quiz c2Filtered List.reverse "P".data (fun _ => [])).1.getD 2 ⟨[], []⟩).ctx ≠
      joinNL (c2Filtered.take 15) := by
  refine ⟨by decide, by decide⟩

/-- C2 (amended): within one quiz-generation request at most two retry calls
follow the initial one; if the first parse yields fewer than 3 valid
questions there is exactly one reminder retry with the same (shuffled)
context; if the parse still yields fewer than 3 and the filtered line count
exceeds 8 there is exactly one further retry that reuses the original prompt
with an expanded context consisting of the first 15 lines of the shuffled
filtered list (the same in-place-shuffled list used for the original
context); if the filtered lines are 8 or fewer no second retry occurs and
the valid questions (1 or 2) are returned, cleaned and with ids renumbered
sequentially starting at 1. -/
theorem C2_retry_policy :
    (∀ (filtered : List (List Char)) (shuffle : List (List Char) → List (List Char))
        (quizPrompt : List Char) (gen : Nat → List Char),
      (generate_quiz filtered shuffle quizPrompt gen).1.length ≤ 3) ∧
    (∀ (filtered : List (List Char)) (shuffle : List (List Char) → List (List Char))
        (quizPrompt : List Char) (gen : Nat → List Char) (qs0 : List Question),
      ¬ filtered.length < 3 → parse_quiz (gen 0) = .ok qs0 → qs0.length < 3 →
      ∃ rest, (generate_quiz filtered shuffle quizPrompt gen).1 =
        ⟨quizPrompt, joinNL (shuffle filtered)⟩ ::
        ⟨retryPromptText qs0.length quizPrompt, joinNL (shuffle filtered)⟩ :: rest) ∧
    (∀ (filtered : List (List Char)) (shuffle : List (List Char) → List (List Char))
        (quizPrompt : List Char) (gen : Nat → List Char) (qs0 qs1 : List Question),
      ¬ filtered.length < 3 → parse_quiz (gen 0) = .ok qs0 → qs0.length < 3 →
      parse_quiz (gen 1) = .ok qs1 → qs1.length < 3 → 8 < (shuffle filtered).length →
      (generate_quiz filtered shuffle quizPrompt gen).1 =
        [⟨quizPrompt, joinNL (shuffle filtered)⟩,
         ⟨retryPromptText qs0.length quizPrompt, joinNL (shuffle filtered)⟩,
         ⟨quizPrompt, joinNL ((shuffle filtered).take 15)⟩]) ∧
    (∀ (filtered : List (List Char)) (shuffle : List (List Char) → List (List Char))
        (quizPrompt : List Char) (gen : Nat → List Char) (qs0 qs1 : List Question),
      ¬ filtered.length < 3 → parse_quiz (gen 0) = .ok qs0 → qs0.length < 3 →
      parse_quiz (gen 1) = .ok qs1 → qs1.length < 3 → ¬ 8 < (shuffle filtered).length →
      1 ≤ qs1.length →
      (generate_quiz filtered shuffle quizPrompt gen).1.length = 2 ∧
      (generate_quiz filtered shuffle quizPrompt gen).2 =
        .questions (renumber 1 (qs1.map
          (fun q => clean_question_with_context q (joinNL (shuffle filtered)))))) ∧
    (∀ (i : Nat) (l : List Question),
      (renumber i l).map Question.id = List.range' i l.length) := by
  refine ⟨?_, ?_, ?_, ?_, ?_⟩
  · intro f sh p g
    unfold generate_quiz
    by_cases h3 : f.length < 3
    · rw [if_pos h3]
      exact (by omega : (0 : Nat) ≤ 3)
    · rw [if_neg h3]
      rcases hp0 : parse_quiz (g 0) with e | qs0
      · exact (by omega : (1 : Nat) ≤ 3)
      · dsimp only []
        by_cases hl0 : qs0.length < 3
        · rw [if_pos hl0]
          rcases hp1 : parse_quiz (g 1) with e | qs1
          · exact (by omega : (2 : Nat) ≤ 3)
          · dsimp only []
            by_cases hc : qs1.length < 3 ∧ 8 < (sh f).length
            · rw [if_pos hc]
              rcases hp2 : parse_quiz (g 2) with e | qs2
              · exact (by omega : (3 : Nat) ≤ 3)
              · exact (by omega : (3 : Nat) ≤ 3)
            · rw [if_neg hc]
              exact (by omega : (2 : Nat) ≤ 3)
        · rw [if_neg hl0]
          exact (by omega : (1 : Nat) ≤ 3)
  · intro f sh p g qs0 h3 hp0 hlen0
    unfold generate_quiz
    rw [if_neg h3, hp0]
    dsimp only []
    rw [if_pos hlen0]
    rcases hp1 : parse_quiz (g 1) with e | qs1
    · exact ⟨[], rfl⟩
    · dsimp only []
      by_cases hc : qs1.length < 3 ∧ 8 < (sh f).length
      · rw [if_pos hc]
        rcases hp2 : parse_quiz (g 2) with e | qs2
        · exact ⟨[⟨p, joinNL ((sh f).take 15)⟩], rfl⟩
        · exact ⟨[⟨p, joinNL ((sh f).take 15)⟩], rfl⟩
      · rw [if_neg hc]
        exact ⟨[], rfl⟩

  · intro f sh p g qs0 qs1 h3 hp0 hlen0 hp1 hlen1 hgt
    unfold generate_quiz
    rw [if_neg h3, hp0]
    dsimp only []
    rw [if_pos hlen0, hp1]
    dsimp only []
    rw [if_pos ⟨hlen1, hgt⟩]
    rcases hp2 : parse_quiz (g 2) with e | qs2 <;> rfl
  · intro f sh p g qs0 qs1 h3 hp0 hlen0 hp1 hlen1 hle h1
    unfold generate_quiz
    rw [if_neg h3, hp0]
    dsimp only []
    rw [if_pos hlen0, hp1]
    dsimp only []
    rw [if_neg (fun hc => hle hc.2)]
    refine ⟨rfl, ?_⟩
    show finalizeQuiz (joinNL (sh f)) qs1 = _
    unfold finalizeQuiz
    rw [if_neg (by omega), List.take_of_length_le (by omega)]
  · intro i l
    induction l generalizing i with
    | nil => rfl
    | cons q rest ih =>
      rw [renumber, List.map_cons, ih (i + 1), List.length_cons, List.range'_succ]

set_option maxRecDepth 8000 in
/-- Witness for C2 (amended): with nine filtered lines and empty generation
responses all three calls happen, with the stated prompts and contexts; with
three filtered lines and a two-question response, exactly two calls happen
and the two questions are returned cleaned and renumbered. -/
theorem C2_retry_policy_witness :
    (generate_quiz c2Filtered (fun l => l) "P".data (fun _ => [])).1 =
      [⟨"P".data, joinNL c2Filtered⟩,
       ⟨retryPromptText 0 "P".data, joinNL c2Filtered⟩,
       ⟨"P".data, joinNL (c2Filtered.take 15)⟩] ∧
    ((generate_quiz c2Short (fun l => l) "P".data (fun _ => c2TwoSeg)).1.length = 2 ∧
      (generate_quiz c2Short (fun l => l) "P".data (fun _ => c2TwoSeg)).2 =
        .questions (renumber 1 ([wfQuestion 1 c1W1, wfQuestion 2 c1W2].map
          (fun q => clean_question_with_context q (joinNL c2Short))))) :=
  ⟨C2_retry_policy.2.2.1 c2Filtered (fun l => l) "P".data (fun _ => []) [] []
      (by decide) (by decide) (by decide) (by decide) (by decide) (by decide),
   C2_retry_policy.2.2.2.1 c2Short (fun l => l) "P".data (fun _ => c2TwoSeg)
      [wfQuestion 1 c1W1, wfQuestion 2 c1W2] [wfQuestion 1 c1W1, wfQuestion 2 c1W2]
      (by decide) (by decide) (by decide) (by decide) (by decide) (by decide) (by decide)⟩

/-! ## C3 -/

/-- C3: for a session with `n ≥ 1` stored chunks (with embeddings aligned
1:1) and any requested `top_k ≥ 1`, `retrieve_relevant_chunks` returns
exactly `min top_k n` chunk texts, read off along a duplicate-free list of
valid stored-vector indices ordered by ascending (squared) L2 distance of
their embeddings to the query embedding. -/
theorem C3_retrieval (encode : List Char → List ℚ) (query : List Char)
    (chunks : List (List Char)) (embeddings : List (List ℚ)) (topK : Nat)
    (hlen : chunks.length = embeddings.length)
    (hn : 1 ≤ embeddings.length) (hk : 1 ≤ topK) :
    ∃ idxs : List Nat,
      retrieve_relevant_chunks encode query chunks embeddings topK =
        idxs.map (fun i => chunks.getD i []) ∧
      idxs.length = min topK embeddings.length ∧
      (retrieve_relevant_chunks encode query chunks embeddings topK).length =
        min topK embeddings.length ∧
      (∀ i ∈ idxs, i < embeddings.length) ∧
      idxs.Nodup ∧
      idxs.Pairwise (fun i j =>
        sqDist (embeddings.getD i []) (encode query) ≤
        sqDist (embeddings.getD j []) (encode query)) := by
  haveI htot : IsTotal Nat (idxLe embeddings (encode query)) := by
    constructor
    intro i j
    rcases lt_trichotomy (sqDist (embeddings.getD i []) (encode query))
        (sqDist (embeddings.getD j []) (encode query)) with h | h | h
    · exact Or.inl (Or.inl h)
    · rcases Nat.le_total i j with hij | hij
      · exact Or.inl (Or.inr ⟨h, hij⟩)
      · exact Or.inr (Or.inr ⟨h.symm, hij⟩)
    · exact Or.inr (Or.inl h)
  haveI htr : IsTrans Nat (idxLe embeddings (encode query)) := by
    constructor
    intro a b c hab hbc
    rcases hab with h1 | ⟨h1, h1i⟩ <;> rcases hbc with h2 | ⟨h2, h2i⟩
    · exact Or.inl (lt_trans h1 h2)
    · exact Or.inl (lt_of_lt_of_eq h1 h2)
    · exact Or.inl (lt_of_eq_of_lt h1 h2)
    · exact Or.inr ⟨h1.trans h2, le_trans h1i h2i⟩
  have hperm :
      ((List.range embeddings.length).insertionSort (idxLe embeddings (encode query))).Perm
        (List.range embeddings.length) :=
    List.perm_insertionSort _ _
  have hlen2 :
      ((List.range embeddings.length).insertionSort (idxLe embeddings (encode query))).length =
        embeddings.length := by
    rw [hperm.length_eq, List.length_range]
  refine ⟨searchIndex embeddings (encode query) topK, rfl, ?_, ?_, ?_, ?_, ?_⟩
  · unfold searchIndex
    rw [List.length_take, hlen2]
  · unfold retrieve_relevant_chunks
    rw [List.length_map]
    unfold searchIndex
    rw [List.length_take, hlen2]
  · intro i hi
    unfold searchIndex at hi
    have h2 := hperm.mem_iff.mp (List.mem_of_mem_take hi)
    exact List.mem_range.mp h2
  · have hnd :
        ((List.range embeddings.length).insertionSort (idxLe embeddings (encode query))).Nodup :=
      hperm.nodup_iff.mpr (List.nodup_range _)
    exact hnd.sublist (List.take_sublist _ _)
  · have hsorted :
        List.Sorted (idxLe embeddings (encode query))
          ((List.range embeddings.length).insertionSort (idxLe embeddings (encode query))) :=
      List.sorted_insertionSort _ _
    have htk :
        List.Pairwise (idxLe embeddings (encode query))
          (searchIndex embeddings (encode query) topK) :=
      List.Pairwise.sublist (List.take_sublist _ _) hsorted
    refine htk.imp ?_
    intro i j hij
    rcases hij with h | ⟨h, _⟩
    · exact le_of_lt h
    · exact le_of_eq h

/-- Witness for C3 with two stored chunks, one-dimensional embeddings and a
query closer to the second chunk, requesting more neighbours than stored. -/
theorem C3_retrieval_witness :
    ("alpha".data :: "beta".data :: []).length = ([[(0 : ℚ)], [(1 : ℚ)]] : List (List ℚ)).length ∧
    ∃ idxs : List Nat,
      retrieve_relevant_chunks (fun _ => [(9 : ℚ)]) "q".data
          ["alpha".data, "beta".data] [[(0 : ℚ)], [(1 : ℚ)]] 5 =
        idxs.map (fun i => (["alpha".data, "beta".data] : List (List Char)).getD i []) ∧
      idxs.length = min 5 ([[(0 : ℚ)], [(1 : ℚ)]] : List (List ℚ)).length ∧
      (retrieve_relevant_chunks (fun _ => [(9 : ℚ)]) "q".data
          ["alpha".data, "beta".data] [[(0 : ℚ)], [(1 : ℚ)]] 5).length =
        min 5 ([[(0 : ℚ)], [(1 : ℚ)]] : List (List ℚ)).length ∧
      (∀ i ∈ idxs, i < ([[(0 : ℚ)], [(1 : ℚ)]] : List (List ℚ)).length) ∧
      idxs.Nodup ∧
      idxs.Pairwise (fun i j =>
        sqDist (([[(0 : ℚ)], [(1 : ℚ)]] : List (List ℚ)).getD i []) [(9 : ℚ)] ≤
        sqDist (([[(0 : ℚ)], [(1 : ℚ)]] : List (List ℚ)).getD j []) [(9 : ℚ)]) :=
  ⟨rfl, C3_retrieval (fun _ => [(9 : ℚ)]) "q".data ["alpha".data, "beta".data]
    [[(0 : ℚ)], [(1 : ℚ)]] 5 rfl (by decide) (by decide)⟩
